import Mathlib

/-!
Verification of the invoice ledger subsystem of `invoice-maker` (src/main.rs).

Texts and filename stems are modelled as `List Char`; Rust `str::replace`
(leftmost, non-overlapping replacement of every occurrence) is modelled by
`replaceAll`, driven by a fuel argument equal to the input length so that it
is structural and evaluates by `decide`.
-/

namespace InvoiceMaker

/-- Model of Rust `str::replace p q`: scan left to right, replace each
non-overlapping occurrence of `p` by `q`.  `fuel` bounds the recursion; with
`fuel = s.length` it never runs out because every step consumes at least one
character of `s`. -/
def replaceAllAux (p q : List Char) : Nat → List Char → List Char
  | 0, s => s
  | _ + 1, [] => []
  | fuel + 1, c :: cs =>
    if p.isPrefixOf (c :: cs) ∧ 0 < p.length then
      q ++ replaceAllAux p q fuel ((c :: cs).drop p.length)
    else
      c :: replaceAllAux p q fuel cs

/-- Rust `s.replace(p, q)` for `List Char`. -/
def replaceAll (p q s : List Char) : List Char :=
  replaceAllAux p q s.length s

/-- `p` has no nonempty proper border: no nonempty proper suffix of `p` is a
prefix of `p`.  Decidable, checked by `decide` for the concrete markers. -/
def Borderfree (p : List Char) : Prop :=
  ∀ k, k < p.length → 0 < k → ¬ p.drop k <+: p

/-- Side conditions ensuring no occurrence of `p` can touch a fixed middle
block `mid`: `p` is not inside `mid`, cannot start in front of `mid` and end
inside it, and cannot start inside `mid`.  Decidable for concrete strings. -/
def NoCross (p mid : List Char) : Prop :=
  ¬ p <:+: mid ∧ p.length ≤ mid.length + 1 ∧
    (∀ k, k < p.length → 0 < k → ¬ p.drop k <+: mid) ∧
    (∀ j, j < mid.length → mid.length - j < p.length → ¬ mid.drop j <+: p)


/-! ### Canonical markers of the rendered document and filename (src/main.rs) -/

/-- Embedded flag encoding `is_paid: true` (main.rs, `change_invoice_status`). -/
def paidT : List Char := ("is_paid: true").data

/-- Embedded flag encoding `is_paid: false`. -/
def paidF : List Char := ("is_paid: false").data

/-- Embedded flag encoding `is_void: true` (main.rs, `void_invoice`). -/
def voidT : List Char := ("is_void: true").data

/-- Embedded flag encoding `is_void: false`. -/
def voidF : List Char := ("is_void: false").data

/-- Filename status suffix `_PAID`. -/
def sPAID : List Char := ("_PAID").data

/-- Filename status suffix `_VOID`. -/
def sVOID : List Char := ("_VOID").data

/-- Text spliced before the last closing parenthesis by `void_invoice` when
the `is_void` flag is absent. -/
def spliceVoid : List Char := (", is_void: true").data

/-- Key of the embedded paid flag, common to both boolean values. -/
def paidKey : List Char := ("is_paid: ").data

/-- Key of the embedded void flag, common to both boolean values. -/
def voidKey : List Char := ("is_void: ").data

/-- The canonical encoding of the paid flag for a boolean value. -/
def paidLit (b : Bool) : List Char := if b then paidT else paidF

/-- The canonical encoding of the void flag for a boolean value. -/
def voidLit (b : Bool) : List Char := if b then voidT else voidF

/-- A well-formed rendered document: arbitrary text `A`, one status flag,
text `M`, the other status flag, text `B`, with the two flags in either
order (`paid_first` selects which comes first).  `generate_pdf` renders both
flags exactly once via the template context `is_void` / `is_paid`. -/
def mk_doc (paid_first : Bool) (A M B : List Char) (bv bp : Bool) : List Char :=
  if paid_first then A ++ paidLit bp ++ (M ++ voidLit bv ++ B)
  else A ++ voidLit bv ++ (M ++ paidLit bp ++ B)

/-- A document segment is clean when it contains neither flag key, so the
flags of `mk_doc` occur exactly once. -/
def clean_seg (X : List Char) : Prop :=
  ¬ paidKey <:+: X ∧ ¬ voidKey <:+: X

/-- The redundancy invariant of the ledger: the filename stem ends with
`_PAID` iff the text encodes `is_paid: true`, and ends with `_VOID` iff the
text encodes `is_void: true`. -/
def flags_agree (stem text : List Char) : Prop :=
  (sPAID <:+ stem ↔ paidT <:+: text) ∧ (sVOID <:+ stem ↔ voidT <:+: text)

/-! ### Status Transition Engine (main.rs `change_invoice_status`, `void_invoice`) -/

/-- Pay: `content.replace("is_paid: false", "is_paid: true")`. -/
def pay_content (c : List Char) : List Char := replaceAll paidF paidT c

/-- Unpay: `content.replace("is_paid: true", "is_paid: false")`. -/
def unpay_content (c : List Char) : List Char := replaceAll paidT paidF c

/-- Pay: `format!("{}_PAID", stem)` — appends the suffix. -/
def pay_stem (s : List Char) : List Char := s ++ sPAID

/-- Unpay: `stem.replace("_PAID", "")` — removes every `_PAID` occurrence. -/
def unpay_stem (s : List Char) : List Char := replaceAll sPAID [] s

/-- Void: `format!("{}_VOID", stem)`. -/
def void_stem (s : List Char) : List Char := s ++ sVOID

/-- Index of the last occurrence of `ch` in `s` (Rust `str::rfind`). -/
def rfindIdx (ch : Char) : List Char → Option Nat
  | [] => none
  | c :: cs =>
    match rfindIdx ch cs with
    | some i => some (i + 1)
    | none => if c == ch then some 0 else none

/-- Void rewrite of the text (main.rs `void_invoice`): replace
`is_void: false` by `is_void: true` when present; otherwise splice
`", is_void: true"` just before the last `')'`; otherwise leave unchanged. -/
def void_content (c : List Char) : List Char :=
  if voidF <:+: c then replaceAll voidF voidT c
  else
    match rfindIdx ')' c with
    | some i => c.take i ++ spliceVoid ++ c.drop i
    | none => c

/-! ### Ledger Scanner candidate filters (main.rs filter closures) -/

/-- Candidate filter of `change_invoice_status`: skip `_VOID` stems; then
keep non-`_PAID` stems for pay (`target_paid = true`) and `_PAID` stems for
unpay. -/
def pay_filter (target_paid : Bool) (stems : List (List Char)) : List (List Char) :=
  stems.filter fun name =>
    if sVOID.isSuffixOf name then false
    else if target_paid then ! sPAID.isSuffixOf name
    else sPAID.isSuffixOf name

/-- Candidate filter of `void_invoice`: keep stems ending in neither `_VOID`
nor `_PAID`. -/
def void_filter (stems : List (List Char)) : List (List Char) :=
  stems.filter fun name => (! sVOID.isSuffixOf name) && (! sPAID.isSuffixOf name)

/-! ### Filesystem layout (main.rs `generate_pdf` and the transitions) -/

/-- `output/<year>/<client-id>` directory under the data root. -/
def output_dir (root year client : List Char) : List Char :=
  root ++ ("/output/").data ++ year ++ ("/").data ++ client

/-- `format!("{}_{}", invoice_id, project.id)` — the fresh filename stem. -/
def filename_base (invoice_id project_id : List Char) : List Char :=
  invoice_id ++ ("_").data ++ project_id

/-- Source-text artifact path `dir/stem.typ`. -/
def typ_path (dir stem : List Char) : List Char :=
  dir ++ ("/").data ++ stem ++ (".typ").data

/-- Compiled-binary artifact path `dir/stem.pdf`. -/
def pdf_path (dir stem : List Char) : List Char :=
  dir ++ ("/").data ++ stem ++ (".pdf").data

/-! ### Identifier Generator (main.rs `generate_pdf`, invoice id scan) -/

/-- Value of a string of decimal digits. -/
def digitsToNat (s : List Char) : Nat :=
  s.foldl (fun n c => 10 * n + (c.toNat - 48)) 0

/-- Rust `str::parse::<u32>` on a string of decimal digits: fails when the
string is empty or the value exceeds `u32::MAX`. -/
def parseU32 (s : List Char) : Option Nat :=
  if s.isEmpty then none
  else if digitsToNat s < 4294967296 then some (digitsToNat s) else none

/-- Sequence number parsed from one filename: the filename must start with
the prefix `HI<YYYYMMDD>`, followed by `-`, then the digits up to the first
non-digit character are parsed.  (`Char.isDigit` models Rust's
`char::is_numeric`, which agrees with it on ASCII filenames.) -/
def seq_of_filename (pfx fname : List Char) : Option Nat :=
  if pfx.isPrefixOf fname then
    match fname.drop pfx.length with
    | c :: r => if c = '-' then parseU32 (r.takeWhile Char.isDigit) else none
    | [] => none
  else none

/-- The scan loop of `generate_pdf`: `next_idx` starts at 1 and becomes
`idx + 1` whenever a parsed index `idx` is at least the current value.  Both
variables are `u32` in the source, so the increment wraps modulo `2^32`
(release-build semantics; a debug build panics at the same input). -/
def next_idx_loop (pfx : List Char) : List (List Char) → Nat → Nat
  | [], n => n
  | f :: fs, n =>
    next_idx_loop pfx fs
      (match seq_of_filename pfx f with
       | some idx => if n ≤ idx then (idx + 1) % 4294967296 else n
       | none => n)

/-- Identifier Generator: the next sequence number for the filenames found
under the year subtree. -/
def next_idx (pfx : List Char) (files : List (List Char)) : Nat :=
  next_idx_loop pfx files 1

/-- Largest sequence number parsed among the files (0 when none parses). -/
def max_seq (pfx : List Char) (files : List (List Char)) : Nat :=
  (files.filterMap (seq_of_filename pfx)).foldr max 0

/-! ### Field Extractor (main.rs `parse_invoice_total`) -/

/-- Characters matched by the regex class `[\d\.]`. -/
def isDigitDot (c : Char) : Bool := c.isDigit || c == '.'

/-- Rust `str::parse::<f64>` on a `[\d\.]+` token, with exact rational
arithmetic standing in for `f64`: succeeds iff the token has at most one dot
and at least one digit. -/
def parseDec (s : List Char) : Option ℚ :=
  if s.all isDigitDot = true ∧ s.count '.' ≤ 1 ∧ s.any Char.isDigit = true then
    some ((digitsToNat (s.takeWhile fun c => c ≠ '.') : ℚ) +
      (digitsToNat ((s.dropWhile fun c => c ≠ '.').drop 1) : ℚ) /
        (10 : ℚ) ^ ((s.dropWhile fun c => c ≠ '.').drop 1).length)
  else none

/-- Literal `amount:` of the regex `amount:\s*([\d\.]+)`. -/
def amountKey : List Char := ("amount:").data

/-- Literal `tax_rate:` of the regex `tax_rate:\s*([\d\.]+)`. -/
def taxKey : List Char := ("tax_rate:").data

/-- Literal `is_paid:` of the regex `is_paid:\s*(true|false)`. -/
def paidRKey : List Char := ("is_paid:").data

/-- Boolean literal `true`. -/
def trueLit : List Char := ("true").data

/-- Boolean literal `false`. -/
def falseLit : List Char := ("false").data

/-- Literal `client:` of the client-name regex. -/
def clientKey : List Char := ("client:").data

/-- Literal `name:` of the client-name regex. -/
def nameKey : List Char := ("name:").data

/-- Label stripped from extracted client names. -/
def attnLit : List Char := ("Attn:").data

/-- Sentinel client name when extraction fails. -/
def unknownClient : List Char := ("Unknown Client").data

/-- Match of `key\s*([\d\.]+)` at the current position: returns the captured
token and the total number of characters consumed by the match. -/
def matchNumAt (key : List Char) (s : List Char) : Option (List Char × Nat) :=
  if key.isPrefixOf s then
    let r := s.drop key.length
    let ws := r.takeWhile Char.isWhitespace
    let tok := (r.drop ws.length).takeWhile isDigitDot
    if tok.isEmpty then none
    else some (tok, key.length + ws.length + tok.length)
  else none

/-- All captures of a regex, scanned left to right without overlap
(Rust `captures_iter`): on a match, scanning resumes after the match;
otherwise it advances one character.  `fuel = s.length` suffices because
every step consumes at least one character. -/
def scanCaps (m : List Char → Option (List Char × Nat)) : Nat → List Char → List (List Char)
  | 0, _ => []
  | _ + 1, [] => []
  | fuel + 1, c :: cs =>
    match m (c :: cs) with
    | some (tok, len) => tok :: scanCaps m fuel ((c :: cs).drop len)
    | none => scanCaps m fuel cs

/-- The amount tokens captured by `amount_re.captures_iter`. -/
def amountCaps (c : List Char) : List (List Char) :=
  scanCaps (matchNumAt amountKey) c.length c

/-- The running subtotal: `for cap { if let Ok(a) = parse { subtotal += a } }`. -/
def subtotalOf (c : List Char) : ℚ :=
  ((amountCaps c).filterMap parseDec).foldl (· + ·) 0

/-- First match of a regex (Rust `Regex::captures`). -/
def findFirst {α : Type} (m : List Char → Option α) : List Char → Option α
  | [] => none
  | c :: cs =>
    match m (c :: cs) with
    | some a => some a
    | none => findFirst m cs

/-- `tax_rate`: first match parsed, with 0 as the default both when no match
exists and when parsing fails (`unwrap_or(0.0)`). -/
def taxRateOf (c : List Char) : ℚ :=
  match findFirst (fun s => (matchNumAt taxKey s).map Prod.fst) c with
  | some tok => (parseDec tok).getD 0
  | none => 0

/-- Match of `is_paid:\s*(true|false)` at the current position. -/
def matchPaidAt (s : List Char) : Option Bool :=
  if paidRKey.isPrefixOf s then
    let r := (s.drop paidRKey.length).dropWhile Char.isWhitespace
    if trueLit.isPrefixOf r then some true
    else if falseLit.isPrefixOf r then some false
    else none
  else none

/-- `is_paid`: first match, defaulting to `false` when absent. -/
def isPaidOf (c : List Char) : Bool :=
  (findFirst matchPaidAt c).getD false

/-- Match of `client:\s*\(\s*name:\s*"([^"]+)"` at the current position. -/
def matchClientAt (s : List Char) : Option (List Char) :=
  if clientKey.isPrefixOf s then
    match (s.drop clientKey.length).dropWhile Char.isWhitespace with
    | '(' :: r2 =>
      let r3 := r2.dropWhile Char.isWhitespace
      if nameKey.isPrefixOf r3 then
        match (r3.drop nameKey.length).dropWhile Char.isWhitespace with
        | '"' :: r5 =>
          let tok := r5.takeWhile fun c => c ≠ '"'
          if tok.isEmpty then none
          else if (r5.drop tok.length).head? = some '"' then some tok else none
        | _ => none
      else none
    | _ => none
  else none

/-- Rust `str::trim`. -/
def trimChars (s : List Char) : List Char :=
  ((s.dropWhile Char.isWhitespace).reverse.dropWhile Char.isWhitespace).reverse

/-- Client display name: first match, `Attn:` label removed, trimmed;
`"Unknown Client"` when absent. -/
def clientOf (c : List Char) : List Char :=
  match findFirst matchClientAt c with
  | some tok => trimChars (replaceAll attnLit [] tok)
  | none => unknownClient

/-- Field Extractor (main.rs `parse_invoice_total`, after the file read):
`(subtotal * (1.0 + tax_rate), is_paid, client_name)`, with `ℚ` standing in
for `f64`. -/
def parse_invoice_total (c : List Char) : ℚ × Bool × List Char :=
  (subtotalOf c * (1 + taxRateOf c), isPaidOf c, clientOf c)

/-- Concrete rendered document with three line items of amounts 10.00,
20.00 and 5.00 and a tax rate of 0.08. -/
def exDoc : List Char :=
  ("#let inv = (items: ((desc: \"Work A\", amount: 10.00), (desc: \"Work B\", amount: 20.00), (desc: \"Work C\", amount: 5.00)), tax_rate: 0.08, is_paid: false, is_void: false, client: (name: \"Acme\"))").data

/-! ### Summary scan (main.rs `show_summary`) -/

/-- Days per month of the proleptic Gregorian calendar, as accepted by
`NaiveDate::parse_from_str`. -/
def daysInMonth (y : Int) (m : Nat) : Nat :=
  if m = 2 then (if y % 4 = 0 ∧ (y % 100 ≠ 0 ∨ y % 400 = 0) then 29 else 28)
  else if m = 4 ∨ m = 6 ∨ m = 9 ∨ m = 11 then 30 else 31

/-- `NaiveDate::parse_from_str(d, "%Y%m%d")` on exactly eight digits,
keeping only the (year, month) pair used by the Aggregator. -/
def parseDate8 (ds : List Char) : Option (Int × Nat) :=
  let y : Int := digitsToNat (ds.take 4)
  let m : Nat := digitsToNat ((ds.drop 4).take 2)
  let d : Nat := digitsToNat (ds.drop 6)
  if 1 ≤ m ∧ m ≤ 12 ∧ 1 ≤ d ∧ d ≤ daysInMonth y m then some (y, m) else none

/-- Match of the regex `HI(\d{8})` at the current position, composed with
the date parse. -/
def matchDateAt (s : List Char) : Option (Int × Nat) :=
  match s with
  | 'H' :: 'I' :: r =>
    let ds := r.take 8
    if ds.length = 8 ∧ ds.all Char.isDigit = true then parseDate8 ds else none
  | _ => none

/-- First `HI(\d{8})` match of the filename, parsed as a date. -/
def findDate (fname : List Char) : Option (Int × Nat) :=
  findFirst matchDateAt fname

/-- The facts extracted from one invoice for the summary (main.rs
`struct InvoiceInfo`; the `NaiveDate` is embedded as year and month, the
only parts the Aggregator reads). -/
structure InvoiceInfo where
  year : Int
  month : Nat
  total : ℚ
  isPaid : Bool
  client : List Char
deriving DecidableEq

/-- A file of the output tree as the summary scan sees it: its name, and
its text when `fs::read_to_string` succeeds (`none` models an I/O error). -/
structure FsFile where
  name : List Char
  content : Option (List Char)
deriving DecidableEq

/-- Per-file step of the summary scan: filename date regex, date parse, file
read, field extraction.  Any failure skips the file (`none`). -/
def extractInfo (f : FsFile) : Option InvoiceInfo :=
  match findDate f.name with
  | none => none
  | some (y, m) =>
    match f.content with
    | none => none
    | some c =>
      let r := parse_invoice_total c
      some ⟨y, m, r.1, r.2.1, r.2.2⟩

/-- The collection loop of `show_summary`: every file that survives all four
steps contributes one `InvoiceInfo`. -/
def scan_infos (files : List FsFile) : List InvoiceInfo :=
  files.filterMap extractInfo

/-! ### Aggregator (main.rs `show_summary`, grouping loops) -/

/-- Add one invoice total into a `(paid, unpaid)` bucket. -/
def bucket_add (isPaid : Bool) (amt : ℚ) (v : ℚ × ℚ) : ℚ × ℚ :=
  if isPaid then (v.1 + amt, v.2) else (v.1, v.2 + amt)

/-- `map.entry(key).or_insert((0.0, 0.0))` followed by the `+=`, on an
association-list model of the `BTreeMap`. -/
def upsert {κ : Type} [DecidableEq κ] (k : κ) (i : InvoiceInfo) :
    List (κ × (ℚ × ℚ)) → List (κ × (ℚ × ℚ))
  | [] => [(k, bucket_add i.isPaid i.total (0, 0))]
  | (k', v) :: rest =>
    if k' = k then (k', bucket_add i.isPaid i.total v) :: rest
    else (k', v) :: upsert k i rest

/-- The aggregation loop: filter the extracted facts to the target year,
then fold them into buckets under the grouping key `keyf`. -/
def aggregate {κ : Type} [DecidableEq κ] (keyf : InvoiceInfo → κ) (year : Int)
    (infos : List InvoiceInfo) : List (κ × (ℚ × ℚ)) :=
  (infos.filter fun i => i.year == year).foldl (fun m i => upsert (keyf i) i m) []

/-- Sum of the paid column over all buckets. -/
def paid_sum {κ : Type} (m : List (κ × (ℚ × ℚ))) : ℚ :=
  (m.map fun e => e.2.1).sum

/-- Sum of the unpaid column over all buckets. -/
def unpaid_sum {κ : Type} (m : List (κ × (ℚ × ℚ))) : ℚ :=
  (m.map fun e => e.2.2).sum

/-- Monthly grouping key `(date.year(), date.month())`. -/
def month_key (i : InvoiceInfo) : Int × Nat := (i.year, i.month)

/-- Client grouping key `info.client`. -/
def client_key (i : InvoiceInfo) : List Char := i.client

/-! ### Decidability of the model predicates (used by concrete witnesses) -/

instance (p : List Char) : Decidable (Borderfree p) := by
  unfold Borderfree; infer_instance

instance (p mid : List Char) : Decidable (NoCross p mid) := by
  unfold NoCross; infer_instance

instance (X : List Char) : Decidable (clean_seg X) := by
  unfold clean_seg; infer_instance

instance (stem text : List Char) : Decidable (flags_agree stem text) := by
  unfold flags_agree; infer_instance

/-! ### Helper theorems on string occurrences and `replaceAll` -/

/-- `p.isPrefixOf s` agrees with the `<+:` relation on `List Char`. -/
theorem isPrefixOf_eq_true (p s : List Char) : p.isPrefixOf s = true ↔ p <+: s := by
  simp

/-- `p.isSuffixOf s` agrees with the `<:+` relation on `List Char`. -/
theorem isSuffixOf_eq_true (p s : List Char) : p.isSuffixOf s = true ↔ p <:+ s := by
  simp

/-- An occurrence of `p` at position `i` of `s` makes `p` an infix of `s`. -/
theorem occ_intro {p s : List Char} (i : Nat) (h : p <+: s.drop i) : p <:+: s := by
  obtain ⟨t, ht⟩ := h
  exact ⟨s.take i, t, by rw [List.append_assoc, ht, List.take_append_drop]⟩

/-- Any infix of `s` occurs at some position `i`. -/
theorem occ_elim {p s : List Char} (h : p <:+: s) : ∃ i, p <+: s.drop i := by
  obtain ⟨A, B, rfl⟩ := h
  refine ⟨A.length, ?_⟩
  rw [List.append_assoc, List.drop_left]
  exact ⟨B, rfl⟩

/-- Monotonicity: a left part of an infix is itself an infix. -/
theorem occ_mono {x y z : List Char} (hxy : x <+: y) (hyz : y <:+: z) : x <:+: z := by
  obtain ⟨A, B, rfl⟩ := hyz
  obtain ⟨t, rfl⟩ := hxy
  exact ⟨A, t ++ B, by simp⟩

/-- A suffix is an infix. -/
theorem occ_of_suffix {x y : List Char} (h : x <:+ y) : x <:+: y := by
  obtain ⟨A, rfl⟩ := h
  exact ⟨A, [], by simp⟩

/-- An infix of the middle block is an infix of the surrounding text. -/
theorem occ_append_mid {p m : List Char} (A B : List Char) (h : p <:+: m) :
    p <:+: A ++ m ++ B := by
  obtain ⟨x, y, rfl⟩ := h
  exact ⟨A ++ x, y ++ B, by simp⟩

/-- A prefix of `X ++ Y` no longer than `X` is a prefix of `X`. -/
theorem pref_left {p X Y : List Char} (h : p <+: X ++ Y) (hl : p.length ≤ X.length) :
    p <+: X := by
  rw [List.prefix_iff_eq_take] at h ⊢
  rwa [List.take_append_eq_append_take, Nat.sub_eq_zero_of_le hl, List.take_zero,
    List.append_nil] at h

/-- A prefix of `X ++ Y` at least as long as `X` starts with `X` and continues
into `Y`. -/
theorem pref_split {p X Y : List Char} (h : p <+: X ++ Y) (hl : X.length ≤ p.length) :
    X <+: p ∧ p.drop X.length <+: Y := by
  rw [List.prefix_iff_eq_take] at h
  rw [List.take_append_eq_append_take, List.take_of_length_le hl] at h
  constructor
  · exact ⟨Y.take (p.length - X.length), h.symm⟩
  · rw [h, List.drop_left]
    exact List.take_prefix _ _

/-- In `T1 ++ p ++ T2`, if `p` is borderfree and occurs in neither `T1` nor
`T2`, then its only occurrence is at position `T1.length`. -/
theorem occ_unique {p : List Char} (T1 T2 : List Char) (hp : 0 < p.length)
    (hbf : Borderfree p) (h1 : ¬ p <:+: T1) (h2 : ¬ p <:+: T2) :
    ∀ i, p <+: (T1 ++ p ++ T2).drop i → i = T1.length := by
  intro i h
  rw [List.append_assoc, List.drop_append_eq_append_drop] at h
  rcases Nat.lt_or_ge i T1.length with hi | hi
  · exfalso
    rw [Nat.sub_eq_zero_of_le (Nat.le_of_lt hi), List.drop_zero] at h
    rcases le_or_lt p.length (T1.length - i) with hlen | hlen
    · exact h1 (occ_intro i (pref_left h (by simpa using hlen)))
    · have hsplit := pref_split h (by simp only [List.length_drop]; omega)
      have hk : (T1.drop i).length = T1.length - i := by simp
      have hrest := hsplit.2
      rw [hk] at hrest
      have hpp : p.drop (T1.length - i) <+: p :=
        pref_left hrest (by simp only [List.length_drop]; omega)
      exact hbf (T1.length - i) hlen (by omega) hpp
  · have hT1 : T1.drop i = [] := List.drop_eq_nil_of_le (by omega)
    rw [hT1, List.nil_append, List.drop_append_eq_append_drop] at h
    by_cases hj0 : i - T1.length = 0
    · omega
    · exfalso
      rcases Nat.lt_or_ge (i - T1.length) p.length with hjp | hjp
      · rw [Nat.sub_eq_zero_of_le (Nat.le_of_lt hjp), List.drop_zero] at h
        have hsplit := pref_split h (by simp only [List.length_drop]; omega)
        exact hbf (i - T1.length) hjp (by omega) hsplit.1
      · have hpj : p.drop (i - T1.length) = [] := List.drop_eq_nil_of_le (by omega)
        rw [hpj, List.nil_append] at h
        exact h2 (occ_intro (i - T1.length - p.length) h)

/-- If `p` occurs in neither `A` nor `B` and cannot cross the middle block,
it does not occur in `A ++ mid ++ B`. -/
theorem no_occ_three {p : List Char} (A mid B : List Char) (hp : 0 < p.length)
    (hA : ¬ p <:+: A) (hB : ¬ p <:+: B) (hc : NoCross p mid) :
    ¬ p <:+: A ++ mid ++ B := by
  intro hocc
  obtain ⟨hm, hlen, hL, hR⟩ := hc
  obtain ⟨i, h⟩ := occ_elim hocc
  rw [List.append_assoc, List.drop_append_eq_append_drop] at h
  rcases Nat.lt_or_ge i A.length with hi | hi
  · rw [Nat.sub_eq_zero_of_le (Nat.le_of_lt hi), List.drop_zero] at h
    rcases le_or_lt p.length (A.length - i) with hin | hin
    · exact hA (occ_intro i (pref_left h (by simpa using hin)))
    · have hsplit := pref_split h (by simp only [List.length_drop]; omega)
      have hk : (A.drop i).length = A.length - i := by simp
      have hrest := hsplit.2
      rw [hk] at hrest
      have hsub : p.drop (A.length - i) <+: mid :=
        pref_left hrest (by simp only [List.length_drop]; omega)
      exact hL (A.length - i) hin (by omega) hsub
  · have hA1 : A.drop i = [] := List.drop_eq_nil_of_le (by omega)
    rw [hA1, List.nil_append, List.drop_append_eq_append_drop] at h
    set j := i - A.length with hj
    rcases Nat.lt_or_ge j mid.length with hjm | hjm
    · rw [Nat.sub_eq_zero_of_le (Nat.le_of_lt hjm), List.drop_zero] at h
      rcases le_or_lt p.length (mid.length - j) with hin | hin
      · exact hm (occ_intro j (pref_left h (by simpa using hin)))
      · have hsplit := pref_split h (by simp only [List.length_drop]; omega)
        exact hR j hjm hin hsplit.1
    · have hm1 : mid.drop j = [] := List.drop_eq_nil_of_le (by omega)
      rw [hm1, List.nil_append] at h
      exact hB (occ_intro (j - mid.length) h)

/-- Five-segment version of `no_occ_three`, matching the shape of a rendered
invoice document with two embedded flag blocks. -/
theorem no_occ_five {p : List Char} (X1 m1 X2 m2 X3 : List Char) (hp : 0 < p.length)
    (h1 : ¬ p <:+: X1) (h2 : ¬ p <:+: X2) (h3 : ¬ p <:+: X3)
    (hc1 : NoCross p m1) (hc2 : NoCross p m2) :
    ¬ p <:+: X1 ++ m1 ++ (X2 ++ m2 ++ X3) :=
  no_occ_three X1 m1 (X2 ++ m2 ++ X3) hp h1
    (no_occ_three X2 m2 X3 hp h2 h3 hc2) hc1

/-- If `p` does not occur in `s`, `replaceAllAux` leaves `s` unchanged,
for any amount of fuel. -/
theorem replaceAllAux_eq_self (p q : List Char) :
    ∀ (fuel : Nat) (s : List Char), ¬ p <:+: s → replaceAllAux p q fuel s = s
  | 0, s, _ => rfl
  | _ + 1, [], _ => rfl
  | fuel + 1, c :: cs, h => by
    have hnp : ¬ (p.isPrefixOf (c :: cs) ∧ 0 < p.length) := by
      rintro ⟨hpre, -⟩
      exact h (occ_intro 0 (by simpa using (isPrefixOf_eq_true p (c :: cs)).mp hpre))
    rw [replaceAllAux, if_neg hnp]
    have htail : ¬ p <:+: cs := fun hin => h (hin.trans ⟨[c], [], by simp⟩)
    rw [replaceAllAux_eq_self p q fuel cs htail]

/-- `replaceAll` leaves a string without any occurrence of `p` unchanged. -/
theorem replaceAll_eq_self {p : List Char} (q s : List Char) (h : ¬ p <:+: s) :
    replaceAll p q s = s :=
  replaceAllAux_eq_self p q s.length s h

/-- `replaceAllAux` on a string whose only occurrence of `p` is at position
`T1.length` rewrites exactly that occurrence, given enough fuel. -/
theorem replaceAllAux_once (p q : List Char) (hp : 0 < p.length) :
    ∀ (T1 : List Char) (fuel : Nat) (T2 : List Char), T1.length < fuel →
      (∀ i, p <+: (T1 ++ p ++ T2).drop i → i = T1.length) →
      replaceAllAux p q fuel (T1 ++ p ++ T2) = T1 ++ q ++ T2 := by
  intro T1
  induction T1 with
  | nil =>
    intro fuel T2 hfuel huniq
    have hT2 : ¬ p <:+: T2 := by
      intro hin
      obtain ⟨i, hi⟩ := occ_elim hin
      have hocc : p <+: (([] : List Char) ++ p ++ T2).drop (p.length + i) := by
        rw [List.nil_append, List.drop_append_eq_append_drop]
        have hd : p.drop (p.length + i) = [] := List.drop_eq_nil_of_le (by omega)
        rw [hd, List.nil_append, Nat.add_comm, Nat.add_sub_cancel]
        exact hi
      have h0 := huniq (p.length + i) hocc
      simp only [List.length_nil] at h0
      omega
    obtain ⟨a, p', rfl⟩ : ∃ a p', p = a :: p' := by
      cases p with
      | nil => simp at hp
      | cons a p' => exact ⟨a, p', rfl⟩
    obtain ⟨fuel', rfl⟩ : ∃ fuel', fuel = fuel' + 1 := by
      cases fuel with
      | zero => simp at hfuel
      | succ n => exact ⟨n, rfl⟩
    rw [List.nil_append, List.cons_append, replaceAllAux, if_pos]
    · rw [← List.cons_append, List.drop_left,
        replaceAllAux_eq_self _ q fuel' T2 hT2]
      simp
    · exact ⟨(isPrefixOf_eq_true _ _).mpr ⟨T2, rfl⟩, hp⟩
  | cons c T1' ih =>
    intro fuel T2 hfuel huniq
    obtain ⟨fuel', rfl⟩ : ∃ fuel', fuel = fuel' + 1 := by
      cases fuel with
      | zero => simp at hfuel
      | succ n => exact ⟨n, rfl⟩
    have hnp : ¬ (p.isPrefixOf (c :: (T1' ++ p ++ T2)) = true ∧ 0 < p.length) := by
      rintro ⟨hpre, -⟩
      have h0 := huniq 0 (by simpa using (isPrefixOf_eq_true _ _).mp hpre)
      simp at h0
    have huniq' : ∀ i, p <+: (T1' ++ p ++ T2).drop i → i = T1'.length := by
      intro i hi
      have hs : p <+: (c :: (T1' ++ p ++ T2)).drop (i + 1) := by simpa using hi
      have hq := huniq (i + 1) (by simpa using hs)
      simp at hq
      omega
    simp only [List.cons_append]
    rw [replaceAllAux, if_neg hnp,
      ih fuel' T2 (by simp at hfuel; omega) huniq']

/-- `replaceAll` on a string whose only occurrence of `p` is at position
`T1.length` rewrites exactly that occurrence. -/
theorem replaceAll_once {p : List Char} (q T1 T2 : List Char) (hp : 0 < p.length)
    (huniq : ∀ i, p <+: (T1 ++ p ++ T2).drop i → i = T1.length) :
    replaceAll p q (T1 ++ p ++ T2) = T1 ++ q ++ T2 := by
  unfold replaceAll
  exact replaceAllAux_once p q hp T1 _ T2 (by simp only [List.length_append]; omega) huniq

/-- Combination used for every flag rewrite: unique occurrence obtained from
`occ_unique`, then rewritten by `replaceAll_once`. -/
theorem replaceAll_sandwich {p : List Char} (q T1 T2 : List Char) (hp : 0 < p.length)
    (hbf : Borderfree p) (h1 : ¬ p <:+: T1) (h2 : ¬ p <:+: T2) :
    replaceAll p q (T1 ++ p ++ T2) = T1 ++ q ++ T2 :=
  replaceAll_once q T1 T2 hp (occ_unique T1 T2 hp hbf h1 h2)


/-- A suffix of `x ++ y` of the same length as `y` is `y` itself. -/
theorem suffix_append_unique {z y : List Char} (x : List Char)
    (h : z <:+ x ++ y) (hl : z.length = y.length) : z = y := by
  obtain ⟨w, hw⟩ := h
  refine List.append_inj_right hw ?_
  have hlen := congrArg List.length hw
  simp only [List.length_append] at hlen
  omega

/-- `takeWhile` over an all-true block followed by a false head stops
exactly at the block boundary. -/
theorem takeWhile_all_append (p : Char → Bool) :
    ∀ (ds sfx : List Char), (∀ c ∈ ds, p c = true) →
      (∀ c ∈ sfx.take 1, p c = false) →
      (ds ++ sfx).takeWhile p = ds
  | [], [], _, _ => rfl
  | [], c :: r, _, h3 => by
    simp [List.takeWhile_cons, h3 c (by simp)]
  | d :: ds, sfx, h2, h3 => by
    have hd : p d = true := h2 d (by simp)
    simp only [List.cons_append, List.takeWhile_cons, hd, if_true]
    rw [takeWhile_all_append p ds sfx (fun c hc => h2 c (by simp [hc])) h3]

/-- Every member of a list of naturals is bounded by `foldr max 0`. -/
theorem le_foldr_max : ∀ (l : List Nat), ∀ a ∈ l, a ≤ l.foldr max 0
  | [], a, ha => by simp at ha
  | b :: l, a, ha => by
    rcases List.mem_cons.mp ha with rfl | ha'
    · exact Nat.le_max_left _ _
    · exact Nat.le_trans (le_foldr_max l a ha') (Nat.le_max_right _ _)

/-- Closed form of the `generate_pdf` scan loop, valid as long as every
parsed index stays below `u32::MAX`, so that the `u32` increment does not
wrap. -/
theorem next_idx_loop_eq (pfx : List Char) :
    ∀ (fs : List (List Char)) (n : Nat), 1 ≤ n →
      (∀ s ∈ fs.filterMap (seq_of_filename pfx), s < 4294967295) →
      next_idx_loop pfx fs n = max n ((fs.filterMap (seq_of_filename pfx)).foldr max 0 + 1)
  | [], n, hn, _ => by
    simp only [next_idx_loop, List.filterMap_nil, List.foldr_nil]
    omega
  | f :: fs, n, hn, hb => by
    rw [next_idx_loop]
    cases hseq : seq_of_filename pfx f with
    | none =>
      have hbt : ∀ s ∈ fs.filterMap (seq_of_filename pfx), s < 4294967295 := by
        intro s hs
        apply hb
        simp only [List.filterMap_cons, hseq]
        exact hs
      simp only [hseq]
      rw [next_idx_loop_eq pfx fs n hn hbt]
      simp [List.filterMap_cons, hseq]
    | some idx =>
      have hbt : ∀ s ∈ fs.filterMap (seq_of_filename pfx), s < 4294967295 := by
        intro s hs
        apply hb
        simp only [List.filterMap_cons, hseq]
        exact List.mem_cons_of_mem _ hs
      have hidx : idx < 4294967295 := by
        apply hb
        simp only [List.filterMap_cons, hseq]
        exact List.mem_cons_self _ _
      simp only [hseq]
      have hstep : (if n ≤ idx then (idx + 1) % 4294967296 else n) = max n (idx + 1) := by
        rw [Nat.mod_eq_of_lt (by omega)]
        split <;> omega
      rw [hstep, next_idx_loop_eq pfx fs (max n (idx + 1)) (by omega) hbt]
      simp only [List.filterMap_cons, hseq, List.foldr_cons]
      omega

/-- `foldl (+) a` accumulates the list sum. -/
theorem foldl_add_eq_sum : ∀ (l : List ℚ) (a : ℚ), l.foldl (· + ·) a = a + l.sum
  | [], a => by simp
  | x :: l, a => by
    rw [List.foldl_cons, foldl_add_eq_sum l (a + x), List.sum_cons]
    ring

/-- Unfolding of `paid_sum` on a cons. -/
theorem paid_sum_cons {κ : Type} (k : κ) (v : ℚ × ℚ) (m : List (κ × (ℚ × ℚ))) :
    paid_sum ((k, v) :: m) = v.1 + paid_sum m := by
  simp [paid_sum]

/-- Unfolding of `unpaid_sum` on a cons. -/
theorem unpaid_sum_cons {κ : Type} (k : κ) (v : ℚ × ℚ) (m : List (κ × (ℚ × ℚ))) :
    unpaid_sum ((k, v) :: m) = v.2 + unpaid_sum m := by
  simp [unpaid_sum]

/-- `upsert` adds the invoice's total to the paid column iff it is paid. -/
theorem paid_sum_upsert {κ : Type} [DecidableEq κ] (k : κ) (i : InvoiceInfo) :
    ∀ m, paid_sum (upsert k i m) = paid_sum m + (if i.isPaid then i.total else 0)
  | [] => by
    cases hip : i.isPaid <;> simp [upsert, paid_sum, bucket_add, hip]
  | (k', v) :: rest => by
    by_cases hk : k' = k
    · simp only [upsert, if_pos hk, paid_sum_cons]
      cases hip : i.isPaid <;> simp [bucket_add, hip] <;> ring
    · simp only [upsert, if_neg hk, paid_sum_cons]
      rw [paid_sum_upsert k i rest]
      ring

/-- `upsert` adds the invoice's total to the unpaid column iff it is unpaid. -/
theorem unpaid_sum_upsert {κ : Type} [DecidableEq κ] (k : κ) (i : InvoiceInfo) :
    ∀ m, unpaid_sum (upsert k i m) = unpaid_sum m + (if i.isPaid then 0 else i.total)
  | [] => by
    cases hip : i.isPaid <;> simp [upsert, unpaid_sum, bucket_add, hip]
  | (k', v) :: rest => by
    by_cases hk : k' = k
    · simp only [upsert, if_pos hk, unpaid_sum_cons]
      cases hip : i.isPaid <;> simp [bucket_add, hip] <;> ring
    · simp only [upsert, if_neg hk, unpaid_sum_cons]
      rw [unpaid_sum_upsert k i rest]
      ring

/-- The paid column of the aggregation fold sums the paid totals of the
processed invoices, independently of the grouping key. -/
theorem paid_sum_foldl {κ : Type} [DecidableEq κ] (keyf : InvoiceInfo → κ) :
    ∀ (l : List InvoiceInfo) (m0 : List (κ × (ℚ × ℚ))),
      paid_sum (l.foldl (fun m i => upsert (keyf i) i m) m0) =
        paid_sum m0 + (l.map fun i => if i.isPaid then i.total else 0).sum
  | [], m0 => by simp
  | i :: l, m0 => by
    rw [List.foldl_cons, paid_sum_foldl keyf l (upsert (keyf i) i m0),
      paid_sum_upsert (keyf i) i m0, List.map_cons, List.sum_cons]
    ring

/-- The unpaid column of the aggregation fold sums the unpaid totals of the
processed invoices, independently of the grouping key. -/
theorem unpaid_sum_foldl {κ : Type} [DecidableEq κ] (keyf : InvoiceInfo → κ) :
    ∀ (l : List InvoiceInfo) (m0 : List (κ × (ℚ × ℚ))),
      unpaid_sum (l.foldl (fun m i => upsert (keyf i) i m) m0) =
        unpaid_sum m0 + (l.map fun i => if i.isPaid then 0 else i.total).sum
  | [], m0 => by simp
  | i :: l, m0 => by
    rw [List.foldl_cons, unpaid_sum_foldl keyf l (upsert (keyf i) i m0),
      unpaid_sum_upsert (keyf i) i m0, List.map_cons, List.sum_cons]
    ring

/-- Unpaying a stem that was just paid restores it, provided the original
stem contains no `_PAID` marker. -/
theorem unpay_stem_of_pay (s0 : List Char) (hs : ¬ sPAID <:+: s0) :
    unpay_stem (pay_stem s0) = s0 := by
  have hnil : ¬ sPAID <:+: ([] : List Char) := by decide
  have hshape : pay_stem s0 = s0 ++ sPAID ++ [] := by simp [pay_stem]
  rw [unpay_stem, hshape,
    replaceAll_sandwich [] s0 [] (by decide) (by decide) hs hnil]
  simp

/-! ### Claim theorems -/

/-- Claim C4: VOID is absorbing: a stem ending in `_VOID` never appears in
the candidate list of any subsequent pay, unpay or void operation, so no
operation transitions it out of VOID. -/
theorem void_is_absorbing (stem : List Char) (stems : List (List Char))
    (h : sVOID <:+ stem) :
    (∀ target_paid, stem ∉ pay_filter target_paid stems) ∧
      stem ∉ void_filter stems := by
  have hb : sVOID.isSuffixOf stem = true := (isSuffixOf_eq_true _ _).mpr h
  constructor
  · intro b hmem
    have hpred := (List.mem_filter.mp hmem).2
    simp [hb] at hpred
  · intro hmem
    have hpred := (List.mem_filter.mp hmem).2
    simp [hb] at hpred

/-- Concrete instance of `void_is_absorbing`. -/
theorem void_is_absorbing_witness :
    (∀ target_paid,
        ("HI20240101-01_proj_VOID").data ∉
          pay_filter target_paid [("HI20240101-01_proj_VOID").data]) ∧
      ("HI20240101-01_proj_VOID").data ∉
        void_filter [("HI20240101-01_proj_VOID").data] :=
  void_is_absorbing _ _ (by decide)

/-- Claim C10: voiding a legacy document containing neither `is_void: false`
nor any `')'` renames the stem to end in `_VOID` but writes the text
unchanged, inserting no `is_void` flag. -/
theorem void_legacy_no_marker (c s : List Char)
    (h1 : ¬ voidF <:+: c) (h2 : rfindIdx ')' c = none) :
    void_content c = c ∧ void_stem s = s ++ sVOID ∧ sVOID <:+ void_stem s := by
  refine ⟨?_, rfl, List.suffix_append s sVOID⟩
  unfold void_content
  rw [if_neg h1, h2]

/-- Concrete instance of `void_legacy_no_marker`. -/
theorem void_legacy_no_marker_witness :
    void_content ("hello world").data = ("hello world").data ∧
      void_stem ("HI20240101-01_p").data = ("HI20240101-01_p").data ++ sVOID ∧
      sVOID <:+ void_stem ("HI20240101-01_p").data :=
  void_legacy_no_marker _ _ (by decide) (by decide)

/-- Claim C5 fails as stated: the pay transition on a legacy document with
no embedded `is_paid` flag leaves the text unchanged and without the flag,
splicing nothing. -/
theorem absent_flag_counterexample :
    pay_content ("#let d = (total: 35)").data = ("#let d = (total: 35)").data ∧
      ¬ paidT <:+: pay_content ("#let d = (total: 35)").data ∧
      ¬ paidF <:+: pay_content ("#let d = (total: 35)").data := by
  decide

/-- Claim C5 (amended): only the void transition has the splice fallback.
With the targeted flag absent, pay and unpay leave the text unchanged, while
void splices `", is_void: true"` just before the last `')'` when one
exists. -/
theorem absent_flag_handling (c : List Char) (i : Nat)
    (hpf : ¬ paidF <:+: c) (hpt : ¬ paidT <:+: c) (hvf : ¬ voidF <:+: c)
    (hi : rfindIdx ')' c = some i) :
    pay_content c = c ∧ unpay_content c = c ∧
      void_content c = c.take i ++ spliceVoid ++ c.drop i ∧
      voidT <:+: void_content c := by
  have hv : void_content c = c.take i ++ spliceVoid ++ c.drop i := by
    unfold void_content
    rw [if_neg hvf, hi]
  refine ⟨replaceAll_eq_self _ _ hpf, replaceAll_eq_self _ _ hpt, hv, ?_⟩
  rw [hv]
  exact occ_append_mid _ _ (by decide)

/-- Concrete instance of `absent_flag_handling`. -/
theorem absent_flag_handling_witness :
    pay_content ("#let d = (x: 1)").data = ("#let d = (x: 1)").data ∧
      unpay_content ("#let d = (x: 1)").data = ("#let d = (x: 1)").data ∧
      void_content ("#let d = (x: 1)").data =
        (("#let d = (x: 1)").data).take 14 ++ spliceVoid ++
          (("#let d = (x: 1)").data).drop 14 ∧
      voidT <:+: void_content ("#let d = (x: 1)").data :=
  absent_flag_handling _ 14 (by decide) (by decide) (by decide) (by decide)

/-- Claim C9 fails as stated: a paid invoice is stored with stem
`<invoice-id>_<project-id>_PAID`; the status suffix follows the project id
instead of sitting between the invoice id and the project id. -/
theorem storage_path_counterexample :
    pay_stem (filename_base ("HI20240101-01").data ("proj").data) =
        ("HI20240101-01_proj_PAID").data ∧
      pay_stem (filename_base ("HI20240101-01").data ("proj").data) ≠
        ("HI20240101-01_PAID_proj").data := by
  decide

/-- Claim C9 (amended): documents are stored at
`<root>/output/<YYYY>/<client-id>/<invoice-id>_<project-id>[_PAID|_VOID]`
with the source and binary extensions sharing the stem: the status suffix is
appended after the project id. -/
theorem storage_path_shape (root year client inv proj : List Char)
    (hs : ¬ sPAID <:+: filename_base inv proj) :
    typ_path (output_dir root year client) (filename_base inv proj) =
        root ++ ("/output/").data ++ year ++ ("/").data ++ client ++ ("/").data ++
          (inv ++ ("_").data ++ proj ++ (".typ").data) ∧
      pay_stem (filename_base inv proj) = inv ++ ("_").data ++ (proj ++ sPAID) ∧
      void_stem (filename_base inv proj) = inv ++ ("_").data ++ (proj ++ sVOID) ∧
      unpay_stem (pay_stem (filename_base inv proj)) = filename_base inv proj ∧
      pdf_path (output_dir root year client) (pay_stem (filename_base inv proj)) =
        root ++ ("/output/").data ++ year ++ ("/").data ++ client ++ ("/").data ++
          (inv ++ ("_").data ++ proj ++ sPAID ++ (".pdf").data) := by
  refine ⟨?_, ?_, ?_, ?_, ?_⟩
  · simp [typ_path, output_dir, filename_base]
  · simp [pay_stem, filename_base]
  · simp [void_stem, filename_base]
  · exact unpay_stem_of_pay _ hs
  · simp [pdf_path, output_dir, pay_stem, filename_base]

/-- Concrete instance of `storage_path_shape`. -/
theorem storage_path_shape_witness :
    typ_path (output_dir ("/root").data ("2024").data ("acme").data)
        (filename_base ("HI20240101-01").data ("proj").data) =
        ("/root").data ++ ("/output/").data ++ ("2024").data ++ ("/").data ++
          ("acme").data ++ ("/").data ++
          (("HI20240101-01").data ++ ("_").data ++ ("proj").data ++ (".typ").data) ∧
      pay_stem (filename_base ("HI20240101-01").data ("proj").data) =
        ("HI20240101-01").data ++ ("_").data ++ (("proj").data ++ sPAID) ∧
      void_stem (filename_base ("HI20240101-01").data ("proj").data) =
        ("HI20240101-01").data ++ ("_").data ++ (("proj").data ++ sVOID) ∧
      unpay_stem (pay_stem (filename_base ("HI20240101-01").data ("proj").data)) =
        filename_base ("HI20240101-01").data ("proj").data ∧
      pdf_path (output_dir ("/root").data ("2024").data ("acme").data)
        (pay_stem (filename_base ("HI20240101-01").data ("proj").data)) =
        ("/root").data ++ ("/output/").data ++ ("2024").data ++ ("/").data ++
          ("acme").data ++ ("/").data ++
          (("HI20240101-01").data ++ ("_").data ++ ("proj").data ++ sPAID ++
            (".pdf").data) :=
  storage_path_shape _ _ _ _ _ (by decide)

/-- Claim C3 fails as stated: a pay candidate whose stem contains `_PAID`
in its interior is not restored by pay followed by unpay, because unpay
removes every `_PAID` occurrence from the stem. -/
theorem pay_unpay_counterexample :
    unpay_stem (pay_stem ("HI20250101-01_X_PAIDY").data) ≠
        ("HI20250101-01_X_PAIDY").data ∧
      unpay_stem (pay_stem ("HI20250101-01_X_PAIDY").data) =
        ("HI20250101-01_XY").data := by
  decide

/-- Claim C3 (amended): for an unpaid document whose text carries the
`is_paid` flag exactly once in canonical form and whose stem contains no
`_PAID` marker, pay followed by unpay restores the original text and the
original filename stem. -/
theorem pay_unpay_roundtrip (C D s0 : List Char)
    (hC : ¬ paidKey <:+: C) (hD : ¬ paidKey <:+: D) (hs : ¬ sPAID <:+: s0) :
    unpay_content (pay_content (C ++ paidF ++ D)) = C ++ paidF ++ D ∧
      unpay_stem (pay_stem s0) = s0 := by
  have hCf : ¬ paidF <:+: C := fun h => hC (occ_mono (by decide) h)
  have hDf : ¬ paidF <:+: D := fun h => hD (occ_mono (by decide) h)
  have hCt : ¬ paidT <:+: C := fun h => hC (occ_mono (by decide) h)
  have hDt : ¬ paidT <:+: D := fun h => hD (occ_mono (by decide) h)
  constructor
  · have h1 : pay_content (C ++ paidF ++ D) = C ++ paidT ++ D :=
      replaceAll_sandwich paidT C D (by decide) (by decide) hCf hDf
    have h2 : unpay_content (C ++ paidT ++ D) = C ++ paidF ++ D :=
      replaceAll_sandwich paidF C D (by decide) (by decide) hCt hDt
    rw [h1, h2]
  · exact unpay_stem_of_pay s0 hs

/-- Concrete instance of `pay_unpay_roundtrip`. -/
theorem pay_unpay_roundtrip_witness :
    unpay_content (pay_content (("#let inv = (a: 1, ").data ++ paidF ++ (")").data)) =
        ("#let inv = (a: 1, ").data ++ paidF ++ (")").data ∧
      unpay_stem (pay_stem ("HI20250101-01_proj").data) = ("HI20250101-01_proj").data :=
  pay_unpay_roundtrip _ _ _ (by decide) (by decide) (by decide)


/-- Claim C1 fails as stated: pay on a legacy document with no embedded
`is_paid` flag produces a `..._PAID` stem whose text still does not encode
`is_paid: true`. -/
theorem agreement_counterexample :
    ¬ flags_agree (pay_stem ("HI20240101-01_proj").data)
        (pay_content ("#let invoice = (total: 35)").data) := by
  decide

/-- Claim C1 (amended): for a well-formed document (each flag occurs exactly
once in canonical form, in either order, the stem carries no stray
`_PAID`/`_VOID` markers) that satisfies the agreement invariant beforehand,
the filename suffix and the embedded flags agree after each of the pay,
unpay and void transitions. -/
theorem transitions_preserve_agreement (paid_first : Bool) (A M B s0 : List Char)
    (hA : clean_seg A) (hM : clean_seg M) (hB : clean_seg B)
    (hsP : ¬ sPAID <:+: s0) (hsV : ¬ sVOID <:+: s0) :
    flags_agree (pay_stem s0) (pay_content (mk_doc paid_first A M B false false)) ∧
      flags_agree (unpay_stem (pay_stem s0))
        (unpay_content (mk_doc paid_first A M B false true)) ∧
      flags_agree (void_stem s0) (void_content (mk_doc paid_first A M B false false)) := by
  have hApf : ¬ paidF <:+: A := fun h => hA.1 (occ_mono (by decide) h)
  have hApt : ¬ paidT <:+: A := fun h => hA.1 (occ_mono (by decide) h)
  have hAvf : ¬ voidF <:+: A := fun h => hA.2 (occ_mono (by decide) h)
  have hAvt : ¬ voidT <:+: A := fun h => hA.2 (occ_mono (by decide) h)
  have hMpf : ¬ paidF <:+: M := fun h => hM.1 (occ_mono (by decide) h)
  have hMpt : ¬ paidT <:+: M := fun h => hM.1 (occ_mono (by decide) h)
  have hMvf : ¬ voidF <:+: M := fun h => hM.2 (occ_mono (by decide) h)
  have hMvt : ¬ voidT <:+: M := fun h => hM.2 (occ_mono (by decide) h)
  have hBpf : ¬ paidF <:+: B := fun h => hB.1 (occ_mono (by decide) h)
  have hBpt : ¬ paidT <:+: B := fun h => hB.1 (occ_mono (by decide) h)
  have hBvf : ¬ voidF <:+: B := fun h => hB.2 (occ_mono (by decide) h)
  have hBvt : ¬ voidT <:+: B := fun h => hB.2 (occ_mono (by decide) h)
  have hstemP : sPAID <:+ pay_stem s0 := List.suffix_append s0 sPAID
  have hstemPV : ¬ sVOID <:+ pay_stem s0 := by
    intro hsuf
    have hsuf' : sVOID <:+ s0 ++ sPAID := hsuf
    exact (by decide : sVOID ≠ sPAID) (suffix_append_unique s0 hsuf' (by decide))
  have hstemVV : sVOID <:+ void_stem s0 := List.suffix_append s0 sVOID
  have hstemVP : ¬ sPAID <:+ void_stem s0 := by
    intro hsuf
    have hsuf' : sPAID <:+ s0 ++ sVOID := hsuf
    exact (by decide : sPAID ≠ sVOID) (suffix_append_unique s0 hsuf' (by decide))
  cases paid_first with
  | false =>
    have hdocFF : mk_doc false A M B false false = (A ++ voidF ++ M) ++ paidF ++ B := by
      simp [mk_doc, voidLit, paidLit, List.append_assoc]
    have hdocFT : mk_doc false A M B false true = (A ++ voidF ++ M) ++ paidT ++ B := by
      simp [mk_doc, voidLit, paidLit, List.append_assoc]
    have hdocFF2 : mk_doc false A M B false false = A ++ voidF ++ (M ++ paidF ++ B) := by
      simp [mk_doc, voidLit, paidLit, List.append_assoc]
    have hT1f : ¬ paidF <:+: A ++ voidF ++ M :=
      no_occ_three A voidF M (by decide) hApf hMpf (by decide)
    have hT1t : ¬ paidT <:+: A ++ voidF ++ M :=
      no_occ_three A voidF M (by decide) hApt hMpt (by decide)
    have hpay5 : pay_content (mk_doc false A M B false false) =
        A ++ voidF ++ (M ++ paidT ++ B) := by
      rw [show pay_content (mk_doc false A M B false false) =
          replaceAll paidF paidT (mk_doc false A M B false false) from rfl, hdocFF,
        replaceAll_sandwich paidT (A ++ voidF ++ M) B (by decide) (by decide) hT1f hBpf]
      simp [List.append_assoc]
    have hunpay5 : unpay_content (mk_doc false A M B false true) =
        A ++ voidF ++ (M ++ paidF ++ B) := by
      rw [show unpay_content (mk_doc false A M B false true) =
          replaceAll paidT paidF (mk_doc false A M B false true) from rfl, hdocFT,
        replaceAll_sandwich paidF (A ++ voidF ++ M) B (by decide) (by decide) hT1t hBpt]
      simp [List.append_assoc]
    have hvin : voidF <:+: mk_doc false A M B false false :=
      ⟨A, M ++ paidF ++ B, by simp [mk_doc, voidLit, paidLit, List.append_assoc]⟩
    have hT2vf : ¬ voidF <:+: M ++ paidF ++ B :=
      no_occ_three M paidF B (by decide) hMvf hBvf (by decide)
    have hvoid : void_content (mk_doc false A M B false false) =
        A ++ voidT ++ (M ++ paidF ++ B) := by
      unfold void_content
      rw [if_pos hvin, hdocFF2]
      exact replaceAll_sandwich voidT A (M ++ paidF ++ B) (by decide) (by decide) hAvf hT2vf
    refine ⟨⟨?_, ?_⟩, ⟨?_, ?_⟩, ⟨?_, ?_⟩⟩
    · rw [hpay5]
      refine iff_of_true hstemP ?_
      exact ⟨A ++ voidF ++ M, B, by simp [List.append_assoc]⟩
    · rw [hpay5]
      exact iff_of_false hstemPV
        (no_occ_five A voidF M paidT B (by decide) hAvt hMvt hBvt (by decide) (by decide))
    · rw [hunpay5, unpay_stem_of_pay s0 hsP]
      exact iff_of_false (fun hsuf => hsP (occ_of_suffix hsuf))
        (no_occ_five A voidF M paidF B (by decide) hApt hMpt hBpt (by decide) (by decide))
    · rw [hunpay5, unpay_stem_of_pay s0 hsP]
      exact iff_of_false (fun hsuf => hsV (occ_of_suffix hsuf))
        (no_occ_five A voidF M paidF B (by decide) hAvt hMvt hBvt (by decide) (by decide))
    · rw [hvoid]
      exact iff_of_false hstemVP
        (no_occ_five A voidT M paidF B (by decide) hApt hMpt hBpt (by decide) (by decide))
    · rw [hvoid]
      exact iff_of_true hstemVV ⟨A, M ++ paidF ++ B, rfl⟩
  | true =>
    have hdocFF : mk_doc true A M B false false = A ++ paidF ++ (M ++ voidF ++ B) := by
      simp [mk_doc, voidLit, paidLit, List.append_assoc]
    have hdocFT : mk_doc true A M B false true = A ++ paidT ++ (M ++ voidF ++ B) := by
      simp [mk_doc, voidLit, paidLit, List.append_assoc]
    have hdocFF3 : mk_doc true A M B false false = (A ++ paidF ++ M) ++ voidF ++ B := by
      simp [mk_doc, voidLit, paidLit, List.append_assoc]
    have hT2f : ¬ paidF <:+: M ++ voidF ++ B :=
      no_occ_three M voidF B (by decide) hMpf hBpf (by decide)
    have hT2t : ¬ paidT <:+: M ++ voidF ++ B :=
      no_occ_three M voidF B (by decide) hMpt hBpt (by decide)
    have hpay5 : pay_content (mk_doc true A M B false false) =
        A ++ paidT ++ (M ++ voidF ++ B) := by
      rw [show pay_content (mk_doc true A M B false false) =
          replaceAll paidF paidT (mk_doc true A M B false false) from rfl, hdocFF]
      exact replaceAll_sandwich paidT A (M ++ voidF ++ B) (by decide) (by decide) hApf hT2f
    have hunpay5 : unpay_content (mk_doc true A M B false true) =
        A ++ paidF ++ (M ++ voidF ++ B) := by
      rw [show unpay_content (mk_doc true A M B false true) =
          replaceAll paidT paidF (mk_doc true A M B false true) from rfl, hdocFT]
      exact replaceAll_sandwich paidF A (M ++ voidF ++ B) (by decide) (by decide) hApt hT2t
    have hvin : voidF <:+: mk_doc true A M B false false :=
      ⟨A ++ paidF ++ M, B, by simp [mk_doc, voidLit, paidLit, List.append_assoc]⟩
    have hT1vf : ¬ voidF <:+: A ++ paidF ++ M :=
      no_occ_three A paidF M (by decide) hAvf hMvf (by decide)
    have hvoid : void_content (mk_doc true A M B false false) =
        A ++ paidF ++ (M ++ voidT ++ B) := by
      unfold void_content
      rw [if_pos hvin, hdocFF3,
        replaceAll_sandwich voidT (A ++ paidF ++ M) B (by decide) (by decide) hT1vf hBvf]
      simp [List.append_assoc]
    refine ⟨⟨?_, ?_⟩, ⟨?_, ?_⟩, ⟨?_, ?_⟩⟩
    · rw [hpay5]
      exact iff_of_true hstemP ⟨A, M ++ voidF ++ B, rfl⟩
    · rw [hpay5]
      exact iff_of_false hstemPV
        (no_occ_five A paidT M voidF B (by decide) hAvt hMvt hBvt (by decide) (by decide))
    · rw [hunpay5, unpay_stem_of_pay s0 hsP]
      exact iff_of_false (fun hsuf => hsP (occ_of_suffix hsuf))
        (no_occ_five A paidF M voidF B (by decide) hApt hMpt hBpt (by decide) (by decide))
    · rw [hunpay5, unpay_stem_of_pay s0 hsP]
      exact iff_of_false (fun hsuf => hsV (occ_of_suffix hsuf))
        (no_occ_five A paidF M voidF B (by decide) hAvt hMvt hBvt (by decide) (by decide))
    · rw [hvoid]
      exact iff_of_false hstemVP
        (no_occ_five A paidF M voidT B (by decide) hApt hMpt hBpt (by decide) (by decide))
    · rw [hvoid]
      exact iff_of_true hstemVV ⟨A ++ paidF ++ M, B, by simp [List.append_assoc]⟩

/-- Concrete instance of `transitions_preserve_agreement`, with the
`is_paid` flag rendered before the `is_void` flag as in the template. -/
theorem transitions_preserve_agreement_witness :
    flags_agree (pay_stem ("HI20250101-01_proj").data)
        (pay_content (mk_doc true ("#let inv = (id: 1, ").data (", x: 2, ").data
          (")").data false false)) ∧
      flags_agree (unpay_stem (pay_stem ("HI20250101-01_proj").data))
        (unpay_content (mk_doc true ("#let inv = (id: 1, ").data (", x: 2, ").data
          (")").data false true)) ∧
      flags_agree (void_stem ("HI20250101-01_proj").data)
        (void_content (mk_doc true ("#let inv = (id: 1, ").data (", x: 2, ").data
          (")").data false false)) :=
  transitions_preserve_agreement true _ _ _ _ (by decide) (by decide) (by decide)
    (by decide) (by decide)

/-- Claim C2 fails as stated: at a tree containing a filename with sequence
number `u32::MAX`, the source's `u32` increment `idx + 1` wraps to 0
(release builds; debug builds panic), so the generator returns 0 — neither
`max + 1` nor strictly greater than the existing sequence. -/
theorem identifier_generator_counterexample :
    next_idx ("HI20250301").data [("HI20250301-4294967295_x.typ").data] = 0 ∧
      ¬ (∀ s ∈ [("HI20250301-4294967295_x.typ").data].filterMap
            (seq_of_filename ("HI20250301").data),
          s < next_idx ("HI20250301").data [("HI20250301-4294967295_x.typ").data]) ∧
      next_idx ("HI20250301").data [("HI20250301-4294967295_x.typ").data] ≠
        max_seq ("HI20250301").data [("HI20250301-4294967295_x.typ").data] + 1 := by
  decide

/-- Claim C2 (amended): provided every sequence number parsed under the year
subtree is below `u32::MAX` (so the `u32` increment cannot wrap), the
Identifier Generator returns `max + 1` over the parsed sequence numbers
(1 when none parses), is strictly greater than every parsed sequence, and
the sequence parse tolerates a trailing non-digit suffix such as
`_PAID`/`_VOID`. -/
theorem identifier_generator_spec (pfx : List Char) (files : List (List Char))
    (ds sfx : List Char) (hdig : ∀ c ∈ ds, c.isDigit = true)
    (hsfx : ∀ c ∈ sfx.take 1, c.isDigit = false)
    (hb : ∀ s ∈ files.filterMap (seq_of_filename pfx), s < 4294967295) :
    next_idx pfx files = max_seq pfx files + 1 ∧
      (∀ s ∈ files.filterMap (seq_of_filename pfx), s < next_idx pfx files) ∧
      seq_of_filename pfx (pfx ++ '-' :: (ds ++ sfx)) = parseU32 ds := by
  have hloop : next_idx pfx files = max_seq pfx files + 1 := by
    unfold next_idx max_seq
    rw [next_idx_loop_eq pfx files 1 (by omega) hb]
    omega
  refine ⟨hloop, ?_, ?_⟩
  · intro s hs
    have hle := le_foldr_max _ s hs
    unfold max_seq at hloop
    omega
  · unfold seq_of_filename
    rw [if_pos ((isPrefixOf_eq_true _ _).mpr ⟨'-' :: (ds ++ sfx), rfl⟩),
      List.drop_left]
    show (if ('-' : Char) = '-' then parseU32 ((ds ++ sfx).takeWhile Char.isDigit)
        else none) = parseU32 ds
    rw [if_pos rfl, takeWhile_all_append Char.isDigit ds sfx hdig hsfx]

/-- Concrete instance of `identifier_generator_spec`. -/
theorem identifier_generator_witness :
    next_idx ("HI20250301").data
        [("HI20250301-02_proj_PAID.typ").data, ("HI20250301-01_x.typ").data,
          ("other.typ").data] =
      max_seq ("HI20250301").data
        [("HI20250301-02_proj_PAID.typ").data, ("HI20250301-01_x.typ").data,
          ("other.typ").data] + 1 ∧
      (∀ s ∈ [("HI20250301-02_proj_PAID.typ").data, ("HI20250301-01_x.typ").data,
          ("other.typ").data].filterMap (seq_of_filename ("HI20250301").data),
        s < next_idx ("HI20250301").data
          [("HI20250301-02_proj_PAID.typ").data, ("HI20250301-01_x.typ").data,
            ("other.typ").data]) ∧
      seq_of_filename ("HI20250301").data
          (("HI20250301").data ++ '-' :: (("02").data ++ ("_PAID.typ").data)) =
        parseU32 ("02").data :=
  identifier_generator_spec _ _ _ _ (by decide) (by decide) (by decide)

set_option maxRecDepth 8000 in
/-- Claim C6: the Field Extractor returns the sum of every `amount`
occurrence anywhere in the text times `1 + tax_rate`, with the tax rate 0
when absent; on the document with amounts 10.00, 20.00, 5.00 and
`tax_rate: 0.08` the total is 37.80 (here in exact rational arithmetic,
standing in for `f64`). -/
theorem field_extractor_spec :
    (∀ c, (parse_invoice_total c).1 =
        ((amountCaps c).filterMap parseDec).sum * (1 + taxRateOf c)) ∧
      (∀ c, findFirst (fun s => (matchNumAt taxKey s).map Prod.fst) c = none →
        taxRateOf c = 0) ∧
      (parse_invoice_total exDoc).1 = 189 / 5 := by
  refine ⟨?_, ?_, ?_⟩
  · intro c
    show subtotalOf c * (1 + taxRateOf c) = _
    unfold subtotalOf
    rw [foldl_add_eq_sum]
    ring
  · intro c h
    unfold taxRateOf
    rw [h]
  · have hcaps : amountCaps exDoc = [("10.00").data, ("20.00").data, ("5.00").data] := by
      decide
    have htax : findFirst (fun s => (matchNumAt taxKey s).map Prod.fst) exDoc =
        some ("0.08").data := by
      decide
    have hp1 : parseDec ("10.00").data = some 10 := by
      unfold parseDec
      rw [if_pos (by decide),
        show (("10.00").data.takeWhile fun c => c ≠ '.') = ("10").data from by decide,
        show ((("10.00").data.dropWhile fun c => c ≠ '.').drop 1) = ("00").data from by decide,
        show digitsToNat ("10").data = 10 from by decide,
        show digitsToNat ("00").data = 0 from by decide]
      norm_num
    have hp2 : parseDec ("20.00").data = some 20 := by
      unfold parseDec
      rw [if_pos (by decide),
        show (("20.00").data.takeWhile fun c => c ≠ '.') = ("20").data from by decide,
        show ((("20.00").data.dropWhile fun c => c ≠ '.').drop 1) = ("00").data from by decide,
        show digitsToNat ("20").data = 20 from by decide,
        show digitsToNat ("00").data = 0 from by decide]
      norm_num
    have hp3 : parseDec ("5.00").data = some 5 := by
      unfold parseDec
      rw [if_pos (by decide),
        show (("5.00").data.takeWhile fun c => c ≠ '.') = ("5").data from by decide,
        show ((("5.00").data.dropWhile fun c => c ≠ '.').drop 1) = ("00").data from by decide,
        show digitsToNat ("5").data = 5 from by decide,
        show digitsToNat ("00").data = 0 from by decide]
      norm_num
    have hpt : parseDec ("0.08").data = some (2 / 25) := by
      unfold parseDec
      rw [if_pos (by decide),
        show (("0.08").data.takeWhile fun c => c ≠ '.') = ("0").data from by decide,
        show ((("0.08").data.dropWhile fun c => c ≠ '.').drop 1) = ("08").data from by decide,
        show digitsToNat ("0").data = 0 from by decide,
        show digitsToNat ("08").data = 8 from by decide,
        show (("08").data).length = 2 from by decide]
      norm_num
    show subtotalOf exDoc * (1 + taxRateOf exDoc) = 189 / 5
    have hsub : subtotalOf exDoc = 35 := by
      unfold subtotalOf
      rw [hcaps]
      simp [hp1, hp2, hp3]
      norm_num
    have hrate : taxRateOf exDoc = 2 / 25 := by
      unfold taxRateOf
      simp only [htax, hpt]
      simp
    rw [hsub, hrate]
    norm_num

/-- Concrete instance of `field_extractor_spec`. -/
theorem field_extractor_witness :
    taxRateOf ("no tax here").data = 0 ∧ (parse_invoice_total exDoc).1 = 189 / 5 :=
  ⟨field_extractor_spec.2.1 _ (by decide), field_extractor_spec.2.2⟩

/-- Claim C7: for every target year and every set of extracted invoice
facts, the paid sums of the monthly and the client groupings coincide, and
likewise the unpaid sums, since both groupings partition the same filtered
invoice set. -/
theorem aggregator_groupings_agree (year : Int) (infos : List InvoiceInfo) :
    paid_sum (aggregate month_key year infos) =
        paid_sum (aggregate client_key year infos) ∧
      unpaid_sum (aggregate month_key year infos) =
        unpaid_sum (aggregate client_key year infos) := by
  constructor
  · unfold aggregate
    rw [paid_sum_foldl month_key, paid_sum_foldl client_key]
    simp [paid_sum]
  · unfold aggregate
    rw [unpaid_sum_foldl month_key, unpaid_sum_foldl client_key]
    simp [unpaid_sum]

/-- Claim C8: an unreadable file contributes nothing to the summary scan and
does not disturb the extraction or aggregation of the other files — the scan
of the list with the failing file equals the scan without it. -/
theorem io_error_isolation (name : List Char) (A B : List FsFile) :
    scan_infos (A ++ FsFile.mk name none :: B) = scan_infos (A ++ B) ∧
      ∀ (year : Int),
        paid_sum (aggregate month_key year (scan_infos (A ++ FsFile.mk name none :: B))) =
            paid_sum (aggregate month_key year (scan_infos (A ++ B))) ∧
          unpaid_sum (aggregate month_key year (scan_infos (A ++ FsFile.mk name none :: B))) =
            unpaid_sum (aggregate month_key year (scan_infos (A ++ B))) := by
  have hbad : extractInfo (FsFile.mk name none) = none := by
    unfold extractInfo
    cases hfd : findDate name with
    | none => rfl
    | some p =>
      obtain ⟨y, m⟩ := p
      rfl
  have hmain : scan_infos (A ++ FsFile.mk name none :: B) = scan_infos (A ++ B) := by
    unfold scan_infos
    rw [List.filterMap_append, List.filterMap_append, List.filterMap_cons, hbad]
  exact ⟨hmain, fun year => by rw [hmain]; exact ⟨rfl, rfl⟩⟩


end InvoiceMaker
